import Mathlib

/-!
Formal model of `download_pixi_packages.py`, a utility that reads a pixi
lockfile, extracts Conda package URLs and mirrors the referenced archives
into a `<output>/<platform-subdir>/<filename>` tree.

The embedding translates each Python function into a pure Lean function.
External effects are passed explicitly:
  * the parsed YAML document is a `Yaml` tree (mappings are association
    lists with string keys, matching the lockfile's shape; numeric scalars
    are modelled as integers),
  * the filesystem is an explicit `FS` state (files with contents, plus the
    set of existing directories),
  * the HTTP layer is an oracle `String → NetResult` describing, per URL,
    whether the streamed GET succeeds, fails before the destination file is
    opened (connection error, timeout, non-2xx status raised by
    `raise_for_status`, or failure to open), or fails mid-stream after the
    destination file has been opened and partially written,
  * `os.makedirs` success is an oracle `String → Bool`.
-/

set_option maxRecDepth 4096

/-- A parsed YAML document, as produced by `yaml.safe_load` for the lockfile
shapes this tool reads.  Mappings are insertion-ordered association lists
with string keys (Python dicts preserve insertion order and the lockfile's
keys are strings); numeric scalars are modelled as integers. -/
inductive Yaml where
  | str (s : String)
  | int (n : Int)
  | bool (b : Bool)
  | null
  | list (xs : List Yaml)
  | dict (entries : List (String × Yaml))

/-- First-match association-list lookup: Python `d[k]` / `k in d` on a dict
with unique keys. -/
def lookupKey {β : Type} : List (String × β) → String → Option β
  | [], _ => none
  | (k, v) :: rest, key => if k = key then some v else lookupKey rest key

/-- Python `s.startswith(pre)`. -/
def pyStartsWith (pre s : String) : Bool :=
  pre.data.isPrefixOf s.data

/-- Model of `set.add` on a set of strings.  The set's contents are represented
canonically as the duplicate-free list of elements in first-discovery
order; enumeration order of the underlying Python `set` is modelled
separately (see `extract_conda_package_urls`). -/
def addUrl (urls : List String) (u : String) : List String :=
  if u ∈ urls then urls else urls ++ [u]

/-- State threaded through the primary extraction loop: the URL set plus
the list of values for which a warning has been printed
(`"Warning: Skipping malformed or non-HTTP URL in top-level 'packages'
list: ..."`). -/
structure ExtractState where
  urls : List String
  warnings : List Yaml

/-- One iteration of the primary loop over the top-level `packages` list:
if the entry is a dict containing a `conda` key whose value is a string
starting with `http`, the URL is added; if the `conda` key is present with
any other value a warning is printed; all other entries are skipped
silently (the corresponding debug print is commented out in the source). -/
def primaryStep (st : ExtractState) (entry : Yaml) : ExtractState :=
  match entry with
  | Yaml.dict d =>
    match lookupKey d "conda" with
    | some u =>
      match u with
      | Yaml.str s =>
        if pyStartsWith "http" s then { st with urls := addUrl st.urls s }
        else { st with warnings := st.warnings ++ [u] }
      | _ => { st with warnings := st.warnings ++ [u] }
    | none => st
  | _ => st

/-- The primary traversal: iterate the top-level `packages` list when it is
present and is a list; otherwise contribute nothing. -/
def extractPrimaryState (doc : List (String × Yaml)) : ExtractState :=
  match lookupKey doc "packages" with
  | some (Yaml.list pkgs) => pkgs.foldl primaryStep ⟨[], []⟩
  | _ => ⟨[], []⟩

/-- One iteration of the innermost fallback loop over a per-platform entry
list.  Same acceptance rule as the primary loop, but the warning print is
commented out in the source, so malformed entries are skipped silently. -/
def fallbackStep (urls : List String) (entry : Yaml) : List String :=
  match entry with
  | Yaml.dict d =>
    match lookupKey d "conda" with
    | some (Yaml.str s) => if pyStartsWith "http" s then addUrl urls s else urls
    | some _ => urls
    | none => urls
  | _ => urls

/-- Fold of `fallbackStep` over one platform's entry list. -/
def fallbackEntriesFold (acc : List String) (entries : List Yaml) : List String :=
  entries.foldl fallbackStep acc

/-- Loop over `env_data["packages"].items()`: each platform whose value is a
list contributes its entries. -/
def fallbackPlatformsFold (acc : List String) (platforms : List (String × Yaml)) : List String :=
  platforms.foldl
    (fun a pv =>
      match pv.2 with
      | Yaml.list entries => fallbackEntriesFold a entries
      | _ => a)
    acc

/-- Loop over `lockfile_data["environments"].items()`: each environment that
is a dict with a dict-valued `packages` key contributes its platforms. -/
def fallbackUrlsFrom (acc : List String) (envs : List (String × Yaml)) : List String :=
  envs.foldl
    (fun a ev =>
      match ev.2 with
      | Yaml.dict ed =>
        match lookupKey ed "packages" with
        | some (Yaml.dict platforms) => fallbackPlatformsFold a platforms
        | _ => a
      | _ => a)
    acc

/-- The body of `extract_conda_package_urls` up to the final `list(urls)` conversion:
the primary traversal runs first, and the `environments` fallback is
attempted only when the primary traversal produced an empty set. -/
def extractURLState (doc : List (String × Yaml)) : ExtractState :=
  let st1 := extractPrimaryState doc
  if st1.urls.isEmpty then
    match lookupKey doc "environments" with
    | some (Yaml.dict envs) => { st1 with urls := fallbackUrlsFrom st1.urls envs }
    | _ => st1
  else st1

/-- Contents of the URL set returned by `extract_conda_package_urls`, as the
duplicate-free list of URLs in first-discovery order. -/
def extractURLSet (doc : List (String × Yaml)) : List String :=
  (extractURLState doc).urls

/-- The fallback traversal's own contribution, starting from an empty set. -/
def fallbackUrls (doc : List (String × Yaml)) : List String :=
  match lookupKey doc "environments" with
  | some (Yaml.dict envs) => fallbackUrlsFrom [] envs
  | _ => []

/-- The full `extract_conda_package_urls` including the final `list(urls)` step.
CPython's `set` makes no ordering guarantee (string hashing is even
randomized per process), so the conversion of the set to a list is
modelled by an enumeration function `enum`, constrained where needed to
return a permutation of the set's contents. -/
def extract_conda_package_urls (enum : List String → List String)
    (doc : List (String × Yaml)) : List String :=
  enum (extractURLSet doc)

/-- The accepted URL of a `packages`-list entry, if any: the entry must be a
dict whose `conda` key holds a string starting with `http`. -/
def entryUrl (entry : Yaml) : Option String :=
  match entry with
  | Yaml.dict d =>
    match lookupKey d "conda" with
    | some (Yaml.str s) => if pyStartsWith "http" s then some s else none
    | some _ => none
    | none => none
  | _ => none

/-- The warning (if any) the primary loop prints for an entry: exactly the
entries that are dicts whose `conda` key is present but holds a non-string
or non-`http`-prefixed value trigger a warning naming that value. -/
def warnOf (entry : Yaml) : List Yaml :=
  match entry with
  | Yaml.dict d =>
    match lookupKey d "conda" with
    | some (Yaml.str s) => if pyStartsWith "http" s then [] else [Yaml.str s]
    | some v => [v]
    | none => []
  | _ => []

/-! ### URL path parsing and destination derivation

`download_package` derives the destination from
`urllib.parse.urlparse(url).path`.  The functions below model CPython's
`urlsplit`/`urlparse` path extraction step by step: scheme removal, netloc
removal, fragment split, query split, and the params split that `urlparse`
applies to the last path segment. -/

/-- Characters CPython allows in a URL scheme after the leading letter. -/
def isSchemeChar (c : Char) : Bool :=
  c.isAlphanum || c == '+' || c == '-' || c == '.'

/-- Scheme removal: if the string has a colon at position `i > 0` and every
character before it is a valid scheme character starting with a letter, drop
the scheme and the colon. -/
def removeScheme (l : List Char) : List Char :=
  match l.dropWhile (fun c => c ≠ ':') with
  | [] => l
  | _ :: rest =>
    match l.takeWhile (fun c => c ≠ ':') with
    | [] => l
    | c :: cs => if c.isAlpha && cs.all isSchemeChar then rest else l

/-- Netloc removal: after a leading `//`, the netloc extends to the next
`/`, `?` or `#` (exclusive); the remainder, delimiter included, is kept. -/
def removeNetloc (l : List Char) : List Char :=
  match l with
  | '/' :: '/' :: rest =>
    rest.dropWhile (fun c => c ≠ '/' && c ≠ '?' && c ≠ '#')
  | _ => l

/-- Fragment split: keep everything before the first `#`. -/
def stripFragment (l : List Char) : List Char :=
  l.takeWhile (fun c => c ≠ '#')

/-- Query split: keep everything before the first `?`. -/
def stripQuery (l : List Char) : List Char :=
  l.takeWhile (fun c => c ≠ '?')

/-- Params split (`urlparse` only): within the portion after the last `/`,
drop everything from the first `;` on. -/
def stripParams (l : List Char) : List Char :=
  let rev := l.reverse
  let lastSeg := (rev.takeWhile (fun c => c ≠ '/')).reverse
  let pre := (rev.dropWhile (fun c => c ≠ '/')).reverse
  pre ++ lastSeg.takeWhile (fun c => c ≠ ';')

/-- Model of `urllib.parse.urlparse(url).path`, as a character list. -/
def urlPathChars (url : String) : List Char :=
  stripParams (stripQuery (stripFragment (removeNetloc (removeScheme url.data))))

/-- Python `path.split("/")`: split on every slash, keeping empty pieces. -/
def splitSegs : List Char → List (List Char)
  | [] => [[]]
  | c :: rest =>
    match splitSegs rest with
    | [] => [[]]
    | s :: ss => if c = '/' then [] :: s :: ss else (c :: s) :: ss

/-- Model of `os.path.basename(path)` (POSIX): the run of characters after the final
slash; empty when the path ends in a slash. -/
def basenameChars (l : List Char) : List Char :=
  (l.reverse.takeWhile (fun c => c ≠ '/')).reverse

/-- Model of `[comp for comp in path.split("/") if comp]`: the non-empty segments. -/
def pathComponentsChars (l : List Char) : List (List Char) :=
  (splitSegs l).filter (fun s => s ≠ [])

/-- The destination derivation inside `download_package`:
`filename = os.path.basename(parsed_url.path)`, failing when it is empty;
then the non-empty path components, failing when fewer than two exist; the
platform subdirectory is the second-to-last component
(`path_components[-2]`). -/
def deriveDest (url : String) : Option (String × String) :=
  let path := urlPathChars url
  let filename := basenameChars path
  if filename = [] then none
  else
    let comps := pathComponentsChars path
    if comps.length < 2 then none
    else some (String.mk (comps.getD (comps.length - 2) []), String.mk filename)

/-- The destination rule exactly as the claim states it: split the URL path
into non-empty segments, the filename is the last segment and the platform
subdirectory is the second-to-last segment; failure when fewer than two
segments exist or the derived filename is empty. -/
def claimDeriveDest (url : String) : Option (String × String) :=
  let comps := pathComponentsChars (urlPathChars url)
  if comps.length < 2 then none
  else
    let filename := comps.getD (comps.length - 1) []
    if filename = [] then none
    else some (String.mk (comps.getD (comps.length - 2) []), String.mk filename)

/-- The amended destination rule, as the code actually behaves: the filename
is the run of characters after the final slash of the URL path (which may be
empty); the platform subdirectory is the second-to-last non-empty segment;
failure when the filename is empty or fewer than two non-empty segments
exist. -/
def amendedDeriveDest (url : String) : Option (String × String) :=
  let path := urlPathChars url
  let filename := basenameChars path
  let comps := pathComponentsChars path
  if filename = [] ∨ comps.length < 2 then none
  else some (String.mk (comps.getD (comps.length - 2) []), String.mk filename)

/-! ### Filesystem and network model -/

/-- Remove every binding of key `p` from an association list of files. -/
def eraseKey : List (String × List Nat) → String → List (String × List Nat)
  | [], _ => []
  | (k, v) :: rest, p => if k = p then eraseKey rest p else (k, v) :: eraseKey rest p

/-- Filesystem state: regular files (path with contents, contents modelled
as byte lists) and the set of existing directories. -/
structure FS where
  files : List (String × List Nat)
  dirs : List String
  deriving DecidableEq

/-- Model of `os.path.exists` / `os.path.isfile` on a destination path. -/
def FS.fileExists (fs : FS) (p : String) : Bool :=
  (lookupKey fs.files p).isSome

/-- Model of `open(p, "wb")` followed by writing `c`: truncates any existing file. -/
def FS.writeFile (fs : FS) (p : String) (c : List Nat) : FS :=
  { fs with files := (p, c) :: eraseKey fs.files p }

/-- Model of `os.remove p`. -/
def FS.removeFile (fs : FS) (p : String) : FS :=
  { fs with files := eraseKey fs.files p }

/-- Cause of a failed fetch, matching the `except` clauses of
`download_package` (HTTP status error, connection error, timeout, other
request error, unexpected error).  All clauses behave identically, so the
cause is carried only for fidelity. -/
inductive FetchError where
  | httpStatus
  | connection
  | timeout
  | requestOther
  | unexpected
  deriving DecidableEq

/-- Outcome of `requests.get(url, stream=True)` plus the streamed read, for
one URL:
  * `ok content`: 2xx response whose body is streamed to disk completely;
  * `errBeforeWrite e`: the request, `raise_for_status`, or `open` raises
    before the destination file is touched;
  * `errDuringWrite e bytesWritten`: the destination file is opened
    (truncating it) and `bytesWritten` bytes are written before the stream
    raises. -/
inductive NetResult where
  | ok (content : List Nat)
  | errBeforeWrite (e : FetchError)
  | errDuringWrite (e : FetchError) (bytesWritten : List Nat)
  deriving DecidableEq

/-- Model of `os.path.join(base, sub)` for the relative, slash-free names this tool
produces. -/
def platformDirOf (base subdir : String) : String :=
  base ++ "/" ++ subdir

/-- The destination file path `<base>/<platform-subdir>/<filename>`. -/
def destinationPath (base subdir filename : String) : String :=
  platformDirOf base subdir ++ "/" ++ filename

/-- The platform-directory creation step: reuse an existing directory, or
call `os.makedirs`, whose success is decided by the `mkdirOk` oracle;
`none` models the `OSError` branch (per-URL failure, state unchanged). -/
def ensureDir (mkdirOk : String → Bool) (d : String) (fs : FS) : Option FS :=
  if d ∈ fs.dirs then some fs
  else if mkdirOk d then some { fs with dirs := d :: fs.dirs } else none

/-- Result of `download_package` for one URL: the boolean the function
returns, whether a network request was issued, and the filesystem after the
call (including the cleanup performed in the error handler). -/
structure FetchOutcome where
  success : Bool
  requested : Bool
  fs : FS
  deriving DecidableEq

/-- The streamed GET plus the chunked write and, on any exception, the
cleanup block of `download_package`: the error handler removes whatever
file currently sits at `output_path` (the `os.remove` call is unconditional
once `os.path.exists(output_path)` holds; the zero-size check only prints a
note). -/
def fetchAndWrite (net : String → NetResult) (url output_path : String)
    (fs1 : FS) : FetchOutcome :=
  match net url with
  | NetResult.ok content => ⟨true, true, fs1.writeFile output_path content⟩
  | NetResult.errBeforeWrite _ =>
    ⟨false, true, if fs1.fileExists output_path then fs1.removeFile output_path else fs1⟩
  | NetResult.errDuringWrite _ written =>
    ⟨false, true, (fs1.writeFile output_path written).removeFile output_path⟩

/-- The function `download_package(url, base_output_dir, force_download)`.

Control flow mirrors the source: destination derivation (failure returns
`False` before any filesystem or network action); platform directory
creation (failure returns `False` before any network action); the
existence-skip (`not force_download and os.path.exists(output_path)`
returns `True` with no request); the streamed GET; and, on any exception,
the cleanup block, which removes whatever file currently sits at
`output_path` (the `os.remove` is unconditional once the file exists; the
zero-size check only prints a note). -/
def download_package (net : String → NetResult) (mkdirOk : String → Bool)
    (url : String) (base_output_dir : String) (force_download : Bool)
    (fs : FS) : FetchOutcome :=
  match deriveDest url with
  | none => ⟨false, false, fs⟩
  | some (platform_subdir_name, filename) =>
    let platform_output_dir := platformDirOf base_output_dir platform_subdir_name
    match ensureDir mkdirOk platform_output_dir fs with
    | none => ⟨false, false, fs⟩
    | some fs1 =>
      let output_path := destinationPath base_output_dir platform_subdir_name filename
      if !force_download && fs1.fileExists output_path then
        ⟨true, false, fs1⟩
      else
        fetchAndWrite net url output_path fs1

/-- Running totals maintained by `main`'s loop, plus the request count and
the final filesystem. -/
structure RunTotals where
  successCount : Nat
  failureCount : Nat
  requestCount : Nat
  fs : FS
  deriving DecidableEq

/-- The loop of `main` over the extracted URLs: every URL is processed
in order regardless of earlier failures, incrementing the success or the
failure counter according to `download_package`'s return value. -/
def processUrls (net : String → NetResult) (mkdirOk : String → Bool)
    (base : String) (force : Bool) : List String → FS → RunTotals
  | [], fs => ⟨0, 0, 0, fs⟩
  | url :: rest, fs =>
    let r := download_package net mkdirOk url base force fs
    let t := processUrls net mkdirOk base force rest r.fs
    { successCount := (if r.success then 1 else 0) + t.successCount
      failureCount := (if r.success then 0 else 1) + t.failureCount
      requestCount := (if r.requested then 1 else 0) + t.requestCount
      fs := t.fs }

/-- The exit code `main` produces once setup has passed and the URL list is
known: `sys.exit(0)` when the list is empty, `sys.exit(1)` when
`failure_count > 0` after the loop, and a plain return (exit code 0)
otherwise. -/
def mainExitCode (net : String → NetResult) (mkdirOk : String → Bool)
    (base : String) (force : Bool) (urls : List String) (fs : FS) : Nat :=
  if urls.isEmpty then 0
  else if 0 < (processUrls net mkdirOk base force urls fs).failureCount then 1 else 0

/-! ### Lockfile loader model -/

/-- Result of `load_lockfile`: either `sys.exit` with a code, or the parsed
document together with whether the version warning was printed. -/
inductive LoadResult where
  | fatalExit (code : Nat)
  | loaded (d : List (String × Yaml)) (versionWarned : Bool)

/-- Python `data.get("version") == SUPPORTED_LOCKFILE_VERSION` with
`SUPPORTED_LOCKFILE_VERSION = 6`: true exactly for the integer scalar 6. -/
def isVersionSix : Option Yaml → Bool
  | some (Yaml.int 6) => true
  | _ => false

/-- The function `load_lockfile(lockfile_path)`.  The interaction with the OS and the
YAML parser is abstracted into the inputs: whether the path exists, whether
it is a regular file, and the result of reading-and-parsing it (`Except`
error covers both the `yaml.YAMLError` branch and the generic read-failure
branch, which exit identically).  A parse result that is not a top-level
mapping exits fatally; a `version` value other than the integer 6 only
sets the warning flag and the document is still returned. -/
def load_lockfile (pathExists isFile : Bool) (parsed : Except Unit Yaml) : LoadResult :=
  if pathExists = false then LoadResult.fatalExit 1
  else if isFile = false then LoadResult.fatalExit 1
  else
    match parsed with
    | Except.error _ => LoadResult.fatalExit 1
    | Except.ok (Yaml.dict d) =>
      LoadResult.loaded d (!isVersionSix (lookupKey d "version"))
    | Except.ok _ => LoadResult.fatalExit 1

/-! ### Concrete fixtures used by the closed-form theorems below -/

/-- A network oracle on which every request raises a connection error. -/
def netFail : String → NetResult := fun _ => NetResult.errBeforeWrite FetchError.connection

/-- A directory-creation oracle on which `os.makedirs` always succeeds. -/
def mkTrue : String → Bool := fun _ => true

/-- The empty output tree. -/
def fs0 : FS := ⟨[], []⟩

/-- A well-formed package URL under the `linux-64` platform directory. -/
def urlA : String := "https://repo.example.com/linux-64/pkg-a-1.0-0.conda"

/-- A well-formed package URL under the `noarch` platform directory. -/
def urlB : String := "https://repo.example.com/noarch/pkg-b-2.0-0.conda"

/-- A URL whose path has two non-empty segments but ends in a slash. -/
def urlTrailing : String := "https://repo.example.com/linux-64/trailing/"

/-- Two distinct URLs (different hosts) sharing their final two path
segments. -/
def urlMirror1 : String := "https://mirror-a.example.com/linux-64/same-1.0-0.conda"

/-- See `urlMirror1`. -/
def urlMirror2 : String := "https://mirror-b.example.com/linux-64/same-1.0-0.conda"

/-- An output tree already holding the complete destination file of `urlA`
next to its platform directory. -/
def fsPre : FS := ⟨[("out/linux-64/pkg-a-1.0-0.conda", [7, 7, 7])], ["out/linux-64"]⟩

/-- A lockfile document whose primary `packages` list holds one non-mapping
entry and whose `environments` fallback holds one entry with a non-string
`conda` value. -/
def doc6 : List (String × Yaml) :=
  [("packages", Yaml.list [Yaml.str "oops"]),
   ("environments", Yaml.dict
     [("default", Yaml.dict
       [("packages", Yaml.dict
         [("linux-64", Yaml.list [Yaml.dict [("conda", Yaml.int 5)]])])])])]

/-- A lockfile document whose primary list discovers `urlA` then `urlB`. -/
def doc7 : List (String × Yaml) :=
  [("packages", Yaml.list
    [Yaml.dict [("conda", Yaml.str urlA)], Yaml.dict [("conda", Yaml.str urlB)]])]

/-- A lockfile document discovering the two mirror URLs that collide on the
same destination. -/
def doc8 : List (String × Yaml) :=
  [("packages", Yaml.list
    [Yaml.dict [("conda", Yaml.str urlMirror1)], Yaml.dict [("conda", Yaml.str urlMirror2)]])]

/-- A lockfile document with a non-empty primary list and an `environments`
section holding a different URL. -/
def doc5 : List (String × Yaml) :=
  [("packages", Yaml.list [Yaml.dict [("conda", Yaml.str urlA)]]),
   ("environments", Yaml.dict
     [("default", Yaml.dict
       [("packages", Yaml.dict
         [("noarch", Yaml.list [Yaml.dict [("conda", Yaml.str urlB)]])])])])]

/-- A lockfile document whose primary list discovers two URLs differing only
in the case of the host. -/
def docCaseVariant : List (String × Yaml) :=
  [("packages", Yaml.list
    [Yaml.dict [("conda", Yaml.str "http://HOST.example/x/y.conda")],
     Yaml.dict [("conda", Yaml.str "http://host.example/x/y.conda")]])]

/-- A lockfile document whose single packages entry carries the given
`conda` value. -/
def singlePackageDoc (s : String) : List (String × Yaml) :=
  [("packages", Yaml.list [Yaml.dict [("conda", Yaml.str s)]])]

/-- A predicate bundle for the extractor's URL set: duplicate-free and every
element `http`-prefixed. -/
def GoodUrls (urls : List String) : Prop :=
  urls.Nodup ∧ ∀ u ∈ urls, pyStartsWith "http" u = true

/-! ## Supporting lemmas -/

theorem foldlPreserves {α σ : Type} (P : σ → Prop) (f : σ → α → σ)
    (h : ∀ s a, P s → P (f s a)) : ∀ (l : List α) (s : σ), P s → P (l.foldl f s) := by
  intro l
  induction l with
  | nil => intro s hs; exact hs
  | cons a t ih => intro s hs; exact ih (f s a) (h s a hs)

theorem addUrl_mem_iff (urls : List String) (u v : String) :
    v ∈ addUrl urls u ↔ v ∈ urls ∨ v = u := by
  unfold addUrl
  by_cases h : u ∈ urls
  · simp only [if_pos h]
    constructor
    · exact fun hv => Or.inl hv
    · rintro (hv | rfl)
      · exact hv
      · exact h
  · simp [if_neg h]

theorem addUrl_good {urls : List String} {u : String}
    (hg : GoodUrls urls) (hu : pyStartsWith "http" u = true) :
    GoodUrls (addUrl urls u) := by
  unfold addUrl
  by_cases h : u ∈ urls
  · simpa [if_pos h] using hg
  · constructor
    · simp only [if_neg h]
      refine List.Nodup.append hg.1 (List.nodup_singleton u) ?_
      simpa [List.disjoint_singleton] using h
    · intro v hv
      simp only [if_neg h, List.mem_append, List.mem_singleton] at hv
      rcases hv with hv | rfl
      · exact hg.2 v hv
      · exact hu

theorem primaryStep_good (st : ExtractState) (e : Yaml)
    (hg : GoodUrls st.urls) : GoodUrls (primaryStep st e).urls := by
  unfold primaryStep
  split
  · split
    · split
      · split
        next hps => exact addUrl_good hg hps
        next hps => exact hg
      · exact hg
    · exact hg
  · exact hg

theorem fallbackStep_good (urls : List String) (e : Yaml)
    (hg : GoodUrls urls) : GoodUrls (fallbackStep urls e) := by
  unfold fallbackStep
  split
  · split
    · split
      next hps => exact addUrl_good hg hps
      next hps => exact hg
    · exact hg
    · exact hg
  · exact hg

theorem fallbackEntriesFold_good (acc : List String) (entries : List Yaml)
    (hg : GoodUrls acc) : GoodUrls (fallbackEntriesFold acc entries) :=
  foldlPreserves GoodUrls fallbackStep fallbackStep_good entries acc hg

theorem fallbackPlatformsFold_good (acc : List String)
    (platforms : List (String × Yaml)) (hg : GoodUrls acc) :
    GoodUrls (fallbackPlatformsFold acc platforms) := by
  refine foldlPreserves GoodUrls _ ?_ platforms acc hg
  intro a pv ha
  split
  · exact fallbackEntriesFold_good a _ ha
  · exact ha

theorem fallbackUrlsFrom_good (acc : List String) (envs : List (String × Yaml))
    (hg : GoodUrls acc) : GoodUrls (fallbackUrlsFrom acc envs) := by
  refine foldlPreserves GoodUrls _ ?_ envs acc hg
  intro a ev ha
  split
  · split
    · exact fallbackPlatformsFold_good a _ ha
    · exact ha
  · exact ha

theorem extractPrimaryState_good (doc : List (String × Yaml)) :
    GoodUrls (extractPrimaryState doc).urls := by
  have h0 : GoodUrls (([] : List String)) := ⟨List.nodup_nil, by simp⟩
  unfold extractPrimaryState
  cases hp : lookupKey doc "packages" with
  | none => exact h0
  | some v =>
    cases v with
    | list pkgs =>
      exact foldlPreserves (fun st => GoodUrls st.urls) primaryStep primaryStep_good pkgs ⟨[], []⟩ h0
    | str s => exact h0
    | int n => exact h0
    | bool b => exact h0
    | null => exact h0
    | dict es => exact h0

theorem extractURLSet_good (doc : List (String × Yaml)) :
    GoodUrls (extractURLSet doc) := by
  have hprim := extractPrimaryState_good doc
  unfold extractURLSet extractURLState
  by_cases he : (extractPrimaryState doc).urls.isEmpty
  · have hempty : (extractPrimaryState doc).urls = [] := by
      simpa [List.isEmpty_iff] using he
    cases henv : lookupKey doc "environments" with
    | none => simpa [he] using hprim
    | some v =>
      cases v with
      | dict envs =>
        simp only [he, if_true, henv]
        exact fallbackUrlsFrom_good _ envs hprim
      | str s => simpa [he, henv] using hprim
      | int n => simpa [he, henv] using hprim
      | bool b => simpa [he, henv] using hprim
      | null => simpa [he, henv] using hprim
      | list xs => simpa [he, henv] using hprim
  · simpa [he] using hprim

theorem isEmpty_true_of_eq {α : Type} {l : List α} (h : l = []) : l.isEmpty = true := by
  subst h; rfl

theorem isEmpty_false_of_ne {α : Type} {l : List α} (h : l ≠ []) : l.isEmpty = false := by
  cases l with
  | nil => exact absurd rfl h
  | cons a t => rfl

/-! ## Claims about the URL extractor -/

/-- Claim C5: the fallback traversal of the `environments` structure is
attempted only when the primary top-level `packages` traversal produced an
empty set, and the two traversals are never merged — when the primary set
is non-empty the extractor returns exactly it (the `environments` section
contributes nothing), and when it is empty the result is exactly the
fallback traversal's own contribution. -/
theorem C5_fallback_only_when_primary_empty (doc : List (String × Yaml)) :
    ((extractPrimaryState doc).urls ≠ [] →
      extractURLSet doc = (extractPrimaryState doc).urls) ∧
    ((extractPrimaryState doc).urls = [] →
      extractURLSet doc = fallbackUrls doc) := by
  constructor
  · intro h
    have he := isEmpty_false_of_ne h
    simp [extractURLSet, extractURLState, he]
  · intro h
    have he := isEmpty_true_of_eq h
    simp only [extractURLSet, extractURLState, he, if_true]
    cases henv : lookupKey doc "environments" with
    | none => simp [fallbackUrls, henv, h]
    | some v =>
      cases v with
      | dict envs => simp [fallbackUrls, henv, h]
      | str s => simp [fallbackUrls, henv, h]
      | int n => simp [fallbackUrls, henv, h]
      | bool b => simp [fallbackUrls, henv, h]
      | null => simp [fallbackUrls, henv, h]
      | list xs => simp [fallbackUrls, henv, h]

theorem C5_witness : extractURLSet doc5 = [urlA] := by
  have h := (C5_fallback_only_when_primary_empty doc5).1 (by decide)
  rw [h]
  decide

/-- Claim C6 counterexample: the claim asserts that every malformed entry —
in particular one that is not a mapping, and malformed entries of the
fallback traversal — is skipped *with a warning naming it*.  In `doc6` the
primary list holds the non-mapping entry `"oops"` and the fallback holds an
entry whose `conda` value is the integer 5; both are skipped, but no
warning at all is printed (the source's debug prints for these cases are
commented out and the fallback's warning print is commented out). -/
theorem C6_counterexample :
    (extractURLState doc6).urls = [] ∧ (extractURLState doc6).warnings.length = 0 := by
  decide

/-- Claim C6 (amended): entries of the primary `packages` list that are
mappings containing a `conda` key with a non-string or non-`http`-prefixed
value are skipped with a warning naming that value; entries that are not
mappings, or that lack the `conda` key, are skipped silently; in the
fallback `environments` traversal every malformed entry is skipped
silently; in no case does a malformed entry escalate to a fatal extraction
failure — each step leaves the accumulated URL set governed solely by
`entryUrl` and continues. -/
theorem C6_skip_warning_policy :
    (∀ (st : ExtractState) (e : Yaml),
      primaryStep st e =
        ⟨(match entryUrl e with
          | some u => addUrl st.urls u
          | none => st.urls), st.warnings ++ warnOf e⟩) ∧
    (∀ (urls : List String) (e : Yaml),
      fallbackStep urls e =
        (match entryUrl e with
         | some u => addUrl urls u
         | none => urls)) ∧
    (∀ doc : List (String × Yaml),
      (extractURLState doc).warnings = (extractPrimaryState doc).warnings) := by
  refine ⟨?_, ?_, ?_⟩
  · intro st e
    cases e with
    | dict d =>
      cases hc : lookupKey d "conda" with
      | none => simp [primaryStep, entryUrl, warnOf, hc]
      | some u =>
        cases u with
        | str s =>
          cases hps : pyStartsWith "http" s <;>
            simp [primaryStep, entryUrl, warnOf, hc, hps]
        | int n => simp [primaryStep, entryUrl, warnOf, hc]
        | bool b => simp [primaryStep, entryUrl, warnOf, hc]
        | null => simp [primaryStep, entryUrl, warnOf, hc]
        | list xs => simp [primaryStep, entryUrl, warnOf, hc]
        | dict es => simp [primaryStep, entryUrl, warnOf, hc]
    | str s => simp [primaryStep, entryUrl, warnOf]
    | int n => simp [primaryStep, entryUrl, warnOf]
    | bool b => simp [primaryStep, entryUrl, warnOf]
    | null => simp [primaryStep, entryUrl, warnOf]
    | list xs => simp [primaryStep, entryUrl, warnOf]
  · intro urls e
    cases e with
    | dict d =>
      cases hc : lookupKey d "conda" with
      | none => simp [fallbackStep, entryUrl, hc]
      | some u =>
        cases u with
        | str s =>
          cases hps : pyStartsWith "http" s <;>
            simp [fallbackStep, entryUrl, hc, hps]
        | int n => simp [fallbackStep, entryUrl, hc]
        | bool b => simp [fallbackStep, entryUrl, hc]
        | null => simp [fallbackStep, entryUrl, hc]
        | list xs => simp [fallbackStep, entryUrl, hc]
        | dict es => simp [fallbackStep, entryUrl, hc]
    | str s => simp [fallbackStep, entryUrl]
    | int n => simp [fallbackStep, entryUrl]
    | bool b => simp [fallbackStep, entryUrl]
    | null => simp [fallbackStep, entryUrl]
    | list xs => simp [fallbackStep, entryUrl]
  · intro doc
    unfold extractURLState
    by_cases he : (extractPrimaryState doc).urls.isEmpty
    · cases henv : lookupKey doc "environments" with
      | none => simp [he, henv]
      | some v =>
        cases v with
        | dict envs => simp [he, henv]
        | str s => simp [he, henv]
        | int n => simp [he, henv]
        | bool b => simp [he, henv]
        | null => simp [he, henv]
        | list xs => simp [he, henv]
    · simp [he]

/-- Claim C7 counterexample: the claim asserts the returned collection
preserves first-discovery insertion order.  The source builds a Python
`set` and returns `list(urls)`; set enumeration carries no order guarantee,
so an admissible enumeration (here: one returning the reverse, which is a
permutation of the set, as the last conjunct certifies) yields the two URLs
of `doc7` in the opposite of their discovery order. -/
theorem C7_counterexample :
    extract_conda_package_urls List.reverse doc7 = [urlB, urlA] ∧
    extractURLSet doc7 = [urlA, urlB] ∧
    urlA ≠ urlB ∧
    (List.reverse [urlA, urlB]).Perm [urlA, urlB] := by
  decide

/-- Claim C7 (amended): the URL set is deduplicated by exact URL string
equality (no normalization — URLs differing only in case or query are kept
as distinct elements, and the set's contents are duplicate-free), and the
returned list is some enumeration (a permutation) of the set's contents;
insertion order is not guaranteed. -/
theorem C7_dedup_exact_equality (enum : List String → List String)
    (henum : ∀ l, (enum l).Perm l) (doc : List (String × Yaml)) :
    (extract_conda_package_urls enum doc).Perm (extractURLSet doc) ∧
    (extractURLSet doc).Nodup ∧
    (∀ u, u ∈ extract_conda_package_urls enum doc ↔ u ∈ extractURLSet doc) :=
  ⟨henum _, (extractURLSet_good doc).1, fun _ => (henum _).mem_iff⟩

theorem C7_witness :
    (extractURLSet docCaseVariant).Nodup ∧
    "http://HOST.example/x/y.conda" ∈ extractURLSet docCaseVariant ∧
    "http://host.example/x/y.conda" ∈ extractURLSet docCaseVariant :=
  ⟨(C7_dedup_exact_equality (fun l => l) (fun l => List.Perm.refl l) docCaseVariant).2.1,
   by decide, by decide⟩

/-- Claim C10: the extractor's URL filter is a pure prefix test — a string
value under a `conda` key is accepted into the set if and only if it starts
with the four characters `http` (so a string such as `"httpgarbage"` is
accepted even though it is no valid absolute URL), and every element of the
returned set carries that prefix. -/
theorem C10_pure_prefix_test :
    (∀ (doc : List (String × Yaml)) (u : String),
      u ∈ extractURLSet doc → pyStartsWith "http" u = true) ∧
    (∀ s : String,
      extractURLSet (singlePackageDoc s) = if pyStartsWith "http" s then [s] else []) := by
  constructor
  · intro doc u hu
    exact (extractURLSet_good doc).2 u hu
  · intro s
    cases hps : pyStartsWith "http" s <;>
      simp [extractURLSet, extractURLState, extractPrimaryState, singlePackageDoc,
            primaryStep, lookupKey, addUrl, hps]

theorem C10_witness :
    "httpgarbage" ∈ extractURLSet (singlePackageDoc "httpgarbage") ∧
    pyStartsWith "http" "httpgarbage" = true :=
  ⟨by decide,
   C10_pure_prefix_test.1 (singlePackageDoc "httpgarbage") "httpgarbage" (by decide)⟩

/-! ## Claims about the destination derivation -/

/-- Claim C1 counterexample: the claim's own rule — filename is the last
*non-empty* segment of the URL path — derives `linux-64/trailing` for a URL
whose path ends in a slash, but the code takes
`os.path.basename(parsed_url.path)`, which is empty there, so the fetcher
fails on that URL instead. -/
theorem C1_counterexample :
    claimDeriveDest urlTrailing = some ("linux-64", "trailing") ∧
    deriveDest urlTrailing = none := by
  decide

/-- Claim C1 (amended): the destination is derived purely from the URL's
path component — the filename is the run of characters after the final
slash of the path (`os.path.basename`, possibly empty, and not always the
last non-empty segment), the platform subdirectory is the second-to-last
non-empty segment, and derivation fails exactly when the filename is empty
or fewer than two non-empty segments exist; on a derivation failure
`download_package` returns a per-URL failure with no network request and
the filesystem untouched.  Determinism is immediate: the destination is a
function of the URL alone. -/
theorem C1_destination_rule (net : String → NetResult) (mkdirOk : String → Bool)
    (base : String) (force : Bool) (fs : FS) (url : String) :
    deriveDest url = amendedDeriveDest url ∧
    (deriveDest url = none →
      download_package net mkdirOk url base force fs = ⟨false, false, fs⟩) := by
  constructor
  · unfold deriveDest amendedDeriveDest
    by_cases h1 : basenameChars (urlPathChars url) = []
    · simp [h1]
    · by_cases h2 : (pathComponentsChars (urlPathChars url)).length < 2
      · simp [h1, h2]
      · simp [h1, h2]
  · intro h
    unfold download_package
    rw [h]

theorem C1_witness :
    download_package netFail mkTrue "httpnopath" "out" false fs0 = ⟨false, false, fs0⟩ :=
  (C1_destination_rule netFail mkTrue "out" false fs0 "httpnopath").2 (by decide)

theorem splitSegs_cons (c : Char) (rest : List Char) :
    splitSegs (c :: rest) =
      match splitSegs rest with
      | [] => [[]]
      | s :: ss => if c = '/' then [] :: s :: ss else (c :: s) :: ss := rfl

theorem splitSegs_no_slash (l : List Char) : ∀ s ∈ splitSegs l, '/' ∉ s := by
  induction l with
  | nil =>
    intro s hs
    simp only [splitSegs, List.mem_singleton] at hs
    subst hs
    simp
  | cons c rest ih =>
    intro s hs
    rw [splitSegs_cons] at hs
    cases hsp : splitSegs rest with
    | nil =>
      rw [hsp] at hs
      simp only [List.mem_singleton] at hs
      subst hs
      simp
    | cons s0 ss =>
      rw [hsp] at hs
      have ih0 : '/' ∉ s0 := ih s0 (by rw [hsp]; exact List.mem_cons_self s0 ss)
      have ihs : ∀ t ∈ ss, '/' ∉ t :=
        fun t ht => ih t (by rw [hsp]; exact List.mem_cons_of_mem s0 ht)
      by_cases hc : c = '/'
      · simp only [if_pos hc, List.mem_cons] at hs
        rcases hs with rfl | rfl | hs
        · simp
        · exact ih0
        · exact ihs s hs
      · simp only [if_neg hc, List.mem_cons] at hs
        rcases hs with rfl | hs
        · intro hmem
          rw [List.mem_cons] at hmem
          rcases hmem with hmem | hmem
          · exact hc hmem.symm
          · exact ih0 hmem
        · exact ihs s hs

theorem basenameChars_no_slash (l : List Char) : '/' ∉ basenameChars l := by
  unfold basenameChars
  intro h
  rw [List.mem_reverse] at h
  have h2 := List.mem_takeWhile_imp h
  simp at h2

theorem pathComponentsChars_no_slash (l : List Char) :
    ∀ s ∈ pathComponentsChars l, '/' ∉ s :=
  fun s hs => splitSegs_no_slash l s (List.mem_of_mem_filter hs)

theorem getD_mem {α : Type} (l : List α) (n : Nat) (d : α) (h : n < l.length) :
    l.getD n d ∈ l := by
  induction l generalizing n with
  | nil => simp at h
  | cons a t ih =>
    cases n with
    | zero => simp
    | succ m =>
      have hm : m < t.length := by simpa using h
      simp only [List.getD_cons_succ]
      exact List.mem_cons_of_mem a (ih m hm)

theorem splitAtSlashUnique (a : List Char) :
    ∀ (c b d : List Char), '/' ∉ a → '/' ∉ c →
      a ++ '/' :: b = c ++ '/' :: d → a = c ∧ b = d := by
  induction a with
  | nil =>
    intro c b d _ hc h
    cases c with
    | nil => simpa using h
    | cons x c2 =>
      rw [List.nil_append, List.cons_append] at h
      have h1 : '/' = x := by injection h
      subst h1
      exact absurd (List.mem_cons_self _ _) hc
  | cons y a2 ih =>
    intro c b d ha hc h
    cases c with
    | nil =>
      rw [List.nil_append, List.cons_append] at h
      have h1 : y = '/' := by injection h
      subst h1
      exact absurd (List.mem_cons_self _ _) ha
    | cons x c2 =>
      rw [List.cons_append, List.cons_append] at h
      have h1 : y = x := by injection h
      subst h1
      have h2 : a2 ++ '/' :: b = c2 ++ '/' :: d := by injection h
      have ha2 : '/' ∉ a2 := fun hm => ha (List.mem_cons_of_mem _ hm)
      have hc2 : '/' ∉ c2 := fun hm => hc (List.mem_cons_of_mem _ hm)
      obtain ⟨hac, hbd⟩ := ih c2 b d ha2 hc2 h2
      exact ⟨by rw [hac], hbd⟩

theorem string_data_append (a b : String) : (a ++ b).data = a.data ++ b.data := rfl

theorem string_eq_of_data {a b : String} (h : a.data = b.data) : a = b :=
  congrArg String.mk h

theorem slash_data : "/".data = ['/'] := rfl

theorem destinationPath_inj {base s1 f1 s2 f2 : String}
    (hs1 : '/' ∉ s1.data) (hs2 : '/' ∉ s2.data)
    (h : destinationPath base s1 f1 = destinationPath base s2 f2) :
    s1 = s2 ∧ f1 = f2 := by
  have hd : base.data ++ '/' :: (s1.data ++ '/' :: f1.data) =
      base.data ++ '/' :: (s2.data ++ '/' :: f2.data) := by
    have h0 := congrArg String.data h
    simpa [destinationPath, platformDirOf, string_data_append, slash_data,
      List.append_assoc] using h0
  have hd1 := List.append_cancel_left hd
  have hd2 : s1.data ++ '/' :: f1.data = s2.data ++ '/' :: f2.data := by
    injection hd1
  obtain ⟨hs, hf⟩ := splitAtSlashUnique s1.data s2.data f1.data f2.data hs1 hs2 hd2
  exact ⟨string_eq_of_data hs, string_eq_of_data hf⟩

theorem deriveDest_no_slash {url s f : String} (h : deriveDest url = some (s, f)) :
    '/' ∉ s.data ∧ '/' ∉ f.data := by
  unfold deriveDest at h
  by_cases h1 : basenameChars (urlPathChars url) = []
  · simp [h1] at h
  · by_cases h2 : (pathComponentsChars (urlPathChars url)).length < 2
    · simp [h1, h2] at h
    · simp only [h1, h2, if_neg, if_false, Option.some.injEq, Prod.mk.injEq] at h
      obtain ⟨hs, hf⟩ := h
      constructor
      · rw [← hs]
        have hmem : (pathComponentsChars (urlPathChars url)).getD
            ((pathComponentsChars (urlPathChars url)).length - 2) [] ∈
            pathComponentsChars (urlPathChars url) := by
          refine getD_mem _ _ _ ?_
          omega
        exact pathComponentsChars_no_slash _ _ hmem
      · rw [← hf]
        exact basenameChars_no_slash _

/-- Claim C8 counterexample: two distinct URLs (same path on different
hosts) survive deduplication as distinct elements of the URL set of `doc8`,
yet derive the identical `(platform-subdir, filename)` destination, so
their destination paths are not disjoint. -/
theorem C8_counterexample :
    extractURLSet doc8 = [urlMirror1, urlMirror2] ∧
    urlMirror1 ≠ urlMirror2 ∧
    deriveDest urlMirror1 = some ("linux-64", "same-1.0-0.conda") ∧
    deriveDest urlMirror2 = some ("linux-64", "same-1.0-0.conda") := by
  decide

/-- Claim C8 (amended): destination paths of two successfully derived URLs
coincide exactly when their derived `(platform-subdir, filename)` pairs
coincide — so URLs whose derived pairs differ write to disjoint
destinations, while distinct URLs sharing their final two path segments
collide.  (Derived components never contain a slash, which is what makes
the joined path injective in the pair.) -/
theorem C8_destination_disjointness (base u1 u2 s1 f1 s2 f2 : String)
    (h1 : deriveDest u1 = some (s1, f1)) (h2 : deriveDest u2 = some (s2, f2)) :
    destinationPath base s1 f1 = destinationPath base s2 f2 ↔ s1 = s2 ∧ f1 = f2 := by
  constructor
  · intro h
    exact destinationPath_inj (deriveDest_no_slash h1).1 (deriveDest_no_slash h2).1 h
  · rintro ⟨rfl, rfl⟩
    rfl

theorem C8_witness :
    destinationPath "out" "noarch" "pkg-b-2.0-0.conda" ≠
      destinationPath "out" "linux-64" "pkg-a-1.0-0.conda" := by
  intro h
  have hcol := (C8_destination_disjointness "out" urlB urlA "noarch" "pkg-b-2.0-0.conda"
    "linux-64" "pkg-a-1.0-0.conda" (by decide) (by decide)).mp h
  exact absurd hcol.1 (by decide)

/-! ## Filesystem lemmas -/

theorem lookupKey_eraseKey_self (l : List (String × List Nat)) (p : String) :
    lookupKey (eraseKey l p) p = none := by
  induction l with
  | nil => simp [eraseKey, lookupKey]
  | cons kv rest ih =>
    obtain ⟨k, v⟩ := kv
    by_cases hk : k = p
    · simpa [eraseKey, hk] using ih
    · simp [eraseKey, lookupKey, hk, ih]

theorem lookupKey_eraseKey_ne (l : List (String × List Nat)) (p q : String)
    (h : q ≠ p) : lookupKey (eraseKey l p) q = lookupKey l q := by
  induction l with
  | nil => simp [eraseKey]
  | cons kv rest ih =>
    obtain ⟨k, v⟩ := kv
    by_cases hk : k = p
    · have hkq : ¬(k = q) := fun hh => h (by rw [← hh, hk])
      simp [eraseKey, lookupKey, hk, hkq, ih, Ne.symm h]
    · by_cases hkq : k = q
      · simp [eraseKey, lookupKey, hk, hkq, h]
      · simp [eraseKey, lookupKey, hk, hkq, ih, h]

theorem fileExists_writeFile (fs : FS) (p q : String) (c : List Nat) :
    (fs.writeFile q c).fileExists p = if p = q then true else fs.fileExists p := by
  unfold FS.writeFile FS.fileExists
  by_cases h : p = q
  · simp [lookupKey, h]
  · have hqp : ¬(q = p) := fun hh => h hh.symm
    simp [lookupKey, hqp, lookupKey_eraseKey_ne fs.files q p h, h]

theorem fileExists_removeFile (fs : FS) (p q : String) :
    (fs.removeFile q).fileExists p = if p = q then false else fs.fileExists p := by
  unfold FS.removeFile FS.fileExists
  by_cases h : p = q
  · simp [h, lookupKey_eraseKey_self]
  · simp [h, lookupKey_eraseKey_ne fs.files q p h]

theorem writeFile_dirs (fs : FS) (p : String) (c : List Nat) :
    (fs.writeFile p c).dirs = fs.dirs := rfl

theorem removeFile_dirs (fs : FS) (p : String) :
    (fs.removeFile p).dirs = fs.dirs := rfl

theorem ensureDir_some {mkdirOk : String → Bool} {d : String} {fs fs1 : FS}
    (h : ensureDir mkdirOk d fs = some fs1) :
    fs1.files = fs.files ∧ d ∈ fs1.dirs ∧ ∀ x ∈ fs.dirs, x ∈ fs1.dirs := by
  unfold ensureDir at h
  by_cases hd : d ∈ fs.dirs
  · rw [if_pos hd] at h
    injection h with h1
    subst h1
    exact ⟨rfl, hd, fun x hx => hx⟩
  · rw [if_neg hd] at h
    by_cases hmk : mkdirOk d = true
    · rw [if_pos hmk] at h
      injection h with h1
      subst h1
      exact ⟨rfl, List.mem_cons_self _ _, fun x hx => List.mem_cons_of_mem _ hx⟩
    · rw [if_neg hmk] at h
      cases h

theorem ensureDir_fileExists {mkdirOk : String → Bool} {d : String} {fs fs1 : FS}
    (h : ensureDir mkdirOk d fs = some fs1) (p : String) :
    fs1.fileExists p = fs.fileExists p := by
  unfold FS.fileExists
  rw [(ensureDir_some h).1]

theorem ensureDir_isSome {mkdirOk : String → Bool} {d : String} {fs : FS}
    (h : d ∈ fs.dirs ∨ mkdirOk d = true) :
    ∃ fs1, ensureDir mkdirOk d fs = some fs1 := by
  unfold ensureDir
  by_cases hd : d ∈ fs.dirs
  · exact ⟨fs, if_pos hd⟩
  · have hmk : mkdirOk d = true := h.resolve_left hd
    rw [if_neg hd, if_pos hmk]
    exact ⟨_, rfl⟩

theorem ensureDir_of_mem {mkdirOk : String → Bool} {d : String} {fs : FS}
    (h : d ∈ fs.dirs) : ensureDir mkdirOk d fs = some fs := by
  unfold ensureDir
  rw [if_pos h]

/-! ## Lemmas about the fetcher -/

theorem dl_dirs_mono (net : String → NetResult) (mkdirOk : String → Bool)
    (url base : String) (force : Bool) (fs : FS) (d : String)
    (hd : d ∈ fs.dirs) :
    d ∈ (download_package net mkdirOk url base force fs).fs.dirs := by
  unfold download_package
  dsimp only
  split
  · exact hd
  next s f heq =>
    split
    · exact hd
    next fs1 hen =>
      have hmono := (ensureDir_some hen).2.2
      split
      · exact hmono d hd
      · unfold fetchAndWrite
        split
        · exact hmono d hd
        · split
          · exact hmono d hd
          · exact hmono d hd
        · exact hmono d hd

theorem dl_success_files_mono (net : String → NetResult) (mkdirOk : String → Bool)
    (url base : String) (force : Bool) (fs : FS) (p : String)
    (hp : fs.fileExists p = true) :
    (download_package net mkdirOk url base force fs).success = true →
    (download_package net mkdirOk url base force fs).fs.fileExists p = true := by
  unfold download_package
  dsimp only
  split
  · intro h
    simp at h
  next s f heq =>
    split
    · intro h
      simp at h
    next fs1 hen =>
      split
      · intro _
        rw [ensureDir_fileExists hen]
        exact hp
      · unfold fetchAndWrite
        split
        · intro _
          rw [fileExists_writeFile]
          by_cases hpo : p = destinationPath base s f
          · rw [if_pos hpo]
          · rw [if_neg hpo, ensureDir_fileExists hen]
            exact hp
        · intro h
          simp at h
        · intro h
          simp at h

theorem dl_success_ensures (net : String → NetResult) (mkdirOk : String → Bool)
    (url base : String) (force : Bool) (fs : FS) :
    (download_package net mkdirOk url base force fs).success = true →
    ∃ s f, deriveDest url = some (s, f) ∧
      (download_package net mkdirOk url base force fs).fs.fileExists
        (destinationPath base s f) = true ∧
      platformDirOf base s ∈ (download_package net mkdirOk url base force fs).fs.dirs := by
  unfold download_package
  dsimp only
  split
  · intro h
    simp at h
  next s f heq =>
    split
    · intro h
      simp at h
    next fs1 hen =>
      split
      next hcond =>
        intro _
        refine ⟨s, f, heq, ?_, ?_⟩
        · have h2 := (Bool.and_eq_true _ _).mp hcond
          exact h2.2
        · exact (ensureDir_some hen).2.1
      · unfold fetchAndWrite
        split
        · intro _
          refine ⟨s, f, heq, ?_, ?_⟩
          · rw [fileExists_writeFile, if_pos rfl]
          · exact (ensureDir_some hen).2.1
        · intro h
          simp at h
        · intro h
          simp at h

theorem dl_cache_hit (net : String → NetResult) (mkdirOk : String → Bool)
    (base : String) (fs : FS) (s f url : String)
    (hd : deriveDest url = some (s, f))
    (hdir : platformDirOf base s ∈ fs.dirs)
    (hfile : fs.fileExists (destinationPath base s f) = true) :
    download_package net mkdirOk url base false fs = ⟨true, false, fs⟩ := by
  unfold download_package
  rw [hd]
  dsimp only
  rw [ensureDir_of_mem hdir]
  dsimp only
  simp [hfile]

theorem dl_force_requested (net : String → NetResult) (mkdirOk : String → Bool)
    (url base : String) (fs : FS) (s f : String)
    (hd : deriveDest url = some (s, f))
    (hdir : platformDirOf base s ∈ fs.dirs ∨ mkdirOk (platformDirOf base s) = true) :
    (download_package net mkdirOk url base true fs).requested = true := by
  obtain ⟨fs1, hen⟩ := ensureDir_isSome hdir
  unfold download_package
  rw [hd]
  dsimp only
  rw [hen]
  dsimp only
  simp only [Bool.not_true, Bool.false_and, Bool.false_eq_true, if_false]
  unfold fetchAndWrite
  split
  · rfl
  · rfl
  · rfl

theorem processUrls_counts (net : String → NetResult) (mkdirOk : String → Bool)
    (base : String) (force : Bool) :
    ∀ (urls : List String) (fs : FS),
      (processUrls net mkdirOk base force urls fs).successCount +
        (processUrls net mkdirOk base force urls fs).failureCount = urls.length := by
  intro urls
  induction urls with
  | nil => intro fs; rfl
  | cons u rest ih =>
    intro fs
    have ih2 := ih (download_package net mkdirOk u base force fs).fs
    cases hr : (download_package net mkdirOk u base force fs).success <;>
      simp [processUrls, hr] <;> omega

theorem processUrls_dirs_mono (net : String → NetResult) (mkdirOk : String → Bool)
    (base : String) (force : Bool) :
    ∀ (urls : List String) (fs : FS) (d : String), d ∈ fs.dirs →
      d ∈ (processUrls net mkdirOk base force urls fs).fs.dirs := by
  intro urls
  induction urls with
  | nil => intro fs d hd; exact hd
  | cons u rest ih =>
    intro fs d hd
    exact ih _ d (dl_dirs_mono net mkdirOk u base force fs d hd)

theorem processUrls_fail0 (net : String → NetResult) (mkdirOk : String → Bool)
    (base : String) (force : Bool) (u : String) (rest : List String) (fs : FS)
    (h : (processUrls net mkdirOk base force (u :: rest) fs).failureCount = 0) :
    (download_package net mkdirOk u base force fs).success = true ∧
    (processUrls net mkdirOk base force rest
      (download_package net mkdirOk u base force fs).fs).failureCount = 0 := by
  cases hr : (download_package net mkdirOk u base force fs).success
  · exfalso
    simp [processUrls, hr] at h
  · refine ⟨rfl, ?_⟩
    simp [processUrls, hr] at h
    exact h

theorem processUrls_files_mono (net : String → NetResult) (mkdirOk : String → Bool)
    (base : String) (force : Bool) :
    ∀ (urls : List String) (fs : FS) (p : String),
      (processUrls net mkdirOk base force urls fs).failureCount = 0 →
      fs.fileExists p = true →
      (processUrls net mkdirOk base force urls fs).fs.fileExists p = true := by
  intro urls
  induction urls with
  | nil => intro fs p _ hp; exact hp
  | cons u rest ih =>
    intro fs p h hp
    obtain ⟨hr, hrest⟩ := processUrls_fail0 net mkdirOk base force u rest fs h
    exact ih _ p hrest (dl_success_files_mono net mkdirOk u base force fs p hp hr)

theorem processUrls_ensures (net : String → NetResult) (mkdirOk : String → Bool)
    (base : String) (force : Bool) :
    ∀ (urls : List String) (fs : FS),
      (processUrls net mkdirOk base force urls fs).failureCount = 0 →
      ∀ u ∈ urls, ∃ s f, deriveDest u = some (s, f) ∧
        (processUrls net mkdirOk base force urls fs).fs.fileExists
          (destinationPath base s f) = true ∧
        platformDirOf base s ∈ (processUrls net mkdirOk base force urls fs).fs.dirs := by
  intro urls
  induction urls with
  | nil => intro fs _ u hu; cases hu
  | cons u0 rest ih =>
    intro fs h u hu
    obtain ⟨hr, hrest⟩ := processUrls_fail0 net mkdirOk base force u0 rest fs h
    rw [List.mem_cons] at hu
    rcases hu with rfl | hu
    · obtain ⟨s, f, hd, hfile, hdir⟩ := dl_success_ensures net mkdirOk u base force fs hr
      refine ⟨s, f, hd, ?_, ?_⟩
      · exact processUrls_files_mono net mkdirOk base force rest _ _ hrest hfile
      · exact processUrls_dirs_mono net mkdirOk base force rest _ _ hdir
    · obtain ⟨s, f, hd, hfile, hdir⟩ := ih _ hrest u hu
      exact ⟨s, f, hd, hfile, hdir⟩

theorem processUrls_cached (net : String → NetResult) (mkdirOk : String → Bool)
    (base : String) :
    ∀ (urls : List String) (fs : FS),
      (∀ u ∈ urls, ∃ s f, deriveDest u = some (s, f) ∧
        fs.fileExists (destinationPath base s f) = true ∧
        platformDirOf base s ∈ fs.dirs) →
      processUrls net mkdirOk base false urls fs = ⟨urls.length, 0, 0, fs⟩ := by
  intro urls
  induction urls with
  | nil => intro fs _; rfl
  | cons u rest ih =>
    intro fs h
    obtain ⟨s, f, hd, hfile, hdir⟩ := h u (List.mem_cons_self u rest)
    have hdl := dl_cache_hit net mkdirOk base fs s f u hd hdir hfile
    have hrest := ih fs (fun v hv => h v (List.mem_cons_of_mem u hv))
    simp [processUrls, hdl, hrest]
    omega

/-! ## Claims about the fetcher and the run orchestrator -/

/-- Claim C2 (code bug): with `--force` set and a complete destination file
already on disk, a fetch that fails before the destination is reopened
(here: a connection error on the GET) triggers the cleanup block, which
deletes the pre-existing complete file — the file exists before the
attempt, the attempt fails having issued a request, and afterwards the file
is gone, although the cleanup comment says it removes partially downloaded
files and the claim says files that existed before the attempt are never
removed. -/
theorem C2_preexisting_file_deleted :
    fsPre.fileExists "out/linux-64/pkg-a-1.0-0.conda" = true ∧
    download_package netFail mkTrue urlA "out" true fsPre =
      ⟨false, true, ⟨[], ["out/linux-64"]⟩⟩ ∧
    (download_package netFail mkTrue urlA "out" true fsPre).fs.fileExists
      "out/linux-64/pkg-a-1.0-0.conda" = false := by
  decide

/-- Claim C3: once setup has passed, the orchestrator attempts every
extracted URL in sequence regardless of earlier per-URL failures (every URL
is classified as a success or a failure: the two counters sum to the list
length), and the process exit code is 0 exactly when no fetch failed —
which covers the empty URL list — and 1 exactly when at least one fetch
failed, however many others succeeded. -/
theorem C3_exit_code (net : String → NetResult) (mkdirOk : String → Bool)
    (base : String) (force : Bool) (urls : List String) (fs : FS) :
    (processUrls net mkdirOk base force urls fs).successCount +
        (processUrls net mkdirOk base force urls fs).failureCount = urls.length ∧
    (mainExitCode net mkdirOk base force urls fs = 0 ↔
      (processUrls net mkdirOk base force urls fs).failureCount = 0) ∧
    (mainExitCode net mkdirOk base force urls fs = 1 ↔
      0 < (processUrls net mkdirOk base force urls fs).failureCount) := by
  refine ⟨processUrls_counts net mkdirOk base force urls fs, ?_, ?_⟩ <;>
  · unfold mainExitCode
    cases urls with
    | nil => simp [processUrls]
    | cons u rest =>
      by_cases hf : 0 < (processUrls net mkdirOk base force (u :: rest) fs).failureCount <;>
        simp [hf] <;> omega

theorem C3_witness : mainExitCode netFail mkTrue "out" false [urlA, urlB] fs0 = 1 :=
  (C3_exit_code netFail mkTrue "out" false [urlA, urlB] fs0).2.2.mpr (by decide)

/-- Claim C4 counterexample: the claim's idempotence sentence is
unconditional, but when the first run itself fails (here: the network
refuses the connection), the destination file is still absent, so the
second run — same lockfile URL list, same output directory, `--force`
unset on both runs — issues a network request again and reports a failure
rather than zero requests and full success. -/
theorem C4_counterexample :
    (processUrls netFail mkTrue "out" false [urlA]
        (processUrls netFail mkTrue "out" false [urlA] fs0).fs).requestCount = 1 ∧
    (processUrls netFail mkTrue "out" false [urlA]
        (processUrls netFail mkTrue "out" false [urlA] fs0).fs).failureCount = 1 := by
  decide

/-- Claim C4 (amended): (1) a URL whose derived destination file already
exists is a success without any network request when force is unset — the
fetcher returns immediately with the filesystem untouched; (2) if a run
reports no failures, a second run over the same URL list and output
directory with force unset performs zero network requests, reports full
success, and leaves the filesystem unchanged — whatever the network or
directory-creation oracles of the second run; (3) with force set, every URL
whose destination derives successfully and whose platform directory exists
or can be created triggers a fresh network request even if the destination
file exists. -/
theorem C4_cache_idempotence_force :
    (∀ (net : String → NetResult) (mkdirOk : String → Bool) (base : String)
        (fs : FS) (url s f : String),
      deriveDest url = some (s, f) →
      platformDirOf base s ∈ fs.dirs →
      fs.fileExists (destinationPath base s f) = true →
      download_package net mkdirOk url base false fs = ⟨true, false, fs⟩) ∧
    (∀ (net net2 : String → NetResult) (mkdirOk mkdirOk2 : String → Bool)
        (base : String) (urls : List String) (fs : FS),
      (processUrls net mkdirOk base false urls fs).failureCount = 0 →
      processUrls net2 mkdirOk2 base false urls
          (processUrls net mkdirOk base false urls fs).fs =
        ⟨urls.length, 0, 0, (processUrls net mkdirOk base false urls fs).fs⟩) ∧
    (∀ (net : String → NetResult) (mkdirOk : String → Bool) (base : String)
        (fs : FS) (url s f : String),
      deriveDest url = some (s, f) →
      (platformDirOf base s ∈ fs.dirs ∨ mkdirOk (platformDirOf base s) = true) →
      (download_package net mkdirOk url base true fs).requested = true) := by
  refine ⟨?_, ?_, ?_⟩
  · intro net mkdirOk base fs url s f hd hdir hfile
    exact dl_cache_hit net mkdirOk base fs s f url hd hdir hfile
  · intro net net2 mkdirOk mkdirOk2 base urls fs h
    exact processUrls_cached net2 mkdirOk2 base urls _
      (processUrls_ensures net mkdirOk base false urls fs h)
  · intro net mkdirOk base fs url s f hd hdir
    exact dl_force_requested net mkdirOk url base fs s f hd hdir

theorem C4_witness :
    download_package netFail mkTrue urlA "out" false fsPre = ⟨true, false, fsPre⟩ :=
  C4_cache_idempotence_force.1 netFail mkTrue "out" fsPre urlA "linux-64"
    "pkg-a-1.0-0.conda" (by decide) (by decide) (by decide)

/-- Claim C9: the loader terminates the run fatally with exit code 1
exactly when the path does not exist, is not a regular file, or the read
does not produce a top-level mapping (invalid YAML, read failure, or any
non-mapping document); a `version` value different from the supported
version 6 only sets the non-fatal warning flag and the parsed document is
still returned. -/
theorem C9_loader_fatal_conditions :
    (∀ (pathExists isFile : Bool) (parsed : Except Unit Yaml),
      load_lockfile pathExists isFile parsed = LoadResult.fatalExit 1 ↔
        (pathExists = false ∨ isFile = false ∨
          ∀ d, parsed ≠ Except.ok (Yaml.dict d))) ∧
    (∀ d : List (String × Yaml),
      load_lockfile true true (Except.ok (Yaml.dict d)) =
        LoadResult.loaded d (!isVersionSix (lookupKey d "version"))) := by
  constructor
  · intro pe fi parsed
    cases pe
    · simp [load_lockfile]
    · cases fi
      · simp [load_lockfile]
      · cases parsed with
        | error e => simp [load_lockfile]
        | ok v =>
          cases v with
          | dict d =>
            simp only [load_lockfile]
            constructor
            · intro h
              simp at h
            · rintro (h | h | h)
              · cases h
              · cases h
              · exact absurd rfl (h d)
          | str s => simp [load_lockfile]
          | int n => simp [load_lockfile]
          | bool b => simp [load_lockfile]
          | null => simp [load_lockfile]
          | list xs => simp [load_lockfile]
  · intro d
    rfl

theorem C9_witness :
    load_lockfile false true (Except.ok Yaml.null) = LoadResult.fatalExit 1 :=
  (C9_loader_fatal_conditions.1 false true (Except.ok Yaml.null)).mpr (Or.inl rfl)
